import Mathlib

/-!
# Harris corner detector of piccante

A shallow embedding of `pic::HarrisCornerDetector`
(`include/features_matching/harris_corner_detector.hpp`) and the properties
its specification states about it.

Conventions of the embedding.

* `float` values are rationals: arithmetic is exact, `==` and `>` are the
  order of `ℚ`.
* An image is a grid of per-pixel channel vectors.  The pixel accessor
  `(*img)(x, y)[c]` is `Image.px`; what it yields for a coordinate outside the
  image is not fixed by the sources, so it is a parameter (`Outside`) of every
  definition that reads a pixel.
* The image-to-image transforms (`FilterLuminance`, `FilterGradientHarrisOPT`,
  `FilterGaussian2D`, `FilterMax`) are black boxes, collected in `Filters`.
  They are functions of their source image: the destination argument of
  `Execute` is storage only.
* Reading `dataTMP` outside the sorted array has no defined result, so
  `execute` returns an `Option`.
* `int` values are unbounded integers; the overflow of `int(-threshold)` and of
  the image size is not modelled.
-/

namespace pic

/-! ## Data model -/

/-- The `Eigen::Vector2f` of an emitted corner: position only. -/
structure Vector2f where
  x : ℚ
  y : ℚ
deriving DecidableEq

/-- The `Eigen::Vector3f` of a candidate: position and quality. -/
structure Vector3f where
  x : ℚ
  y : ℚ
  z : ℚ
deriving DecidableEq

/-- Modelled from the spec: the image buffer (`image.hpp` is absent), a 2D grid
of per-pixel float vectors with a width, a height and a channel count.
`data x y c` is channel `c` of the pixel at column `x`, row `y`. -/
structure Image where
  width : Nat
  height : Nat
  channels : Nat
  data : Nat → Nat → Nat → ℚ

/-- What the pixel accessor yields for a coordinate outside the image. -/
abbrev Outside := Image → Int → Int → Nat → ℚ

/-- Modelled from the spec: the pixel accessor `(*img)(x, y)[c]`; inside the
image it is the channel of the pixel, outside it is whatever `oob` says. -/
def Image.px (oob : Outside) (img : Image) (x y : Int) (c : Nat) : ℚ :=
  if 0 ≤ x ∧ x < img.width ∧ 0 ≤ y ∧ y < img.height then
    img.data x.toNat y.toNat c
  else
    oob img x y c

/-- Modelled from the spec: a store through the accessor,
`(*img)(x, y)[c] = v`, for a pixel of the image. -/
def Image.setPx (img : Image) (x y c : Nat) (v : ℚ) : Image :=
  { img with data := fun x1 y1 c1 => if x1 = x ∧ y1 = y ∧ c1 = c then v else img.data x1 y1 c1 }

/-- Modelled from the spec: `Image::clone`, a copy of the image. -/
def Image.clone (img : Image) : Image := img

/-- Modelled from the spec: `Image::allocateSimilarOne`, a zero-initialised
image of the same width, height and channel count. -/
def Image.allocateSimilarOne (img : Image) : Image :=
  { img with data := fun _ _ _ => 0 }

/-- Channel 0 of every pixel, in raster order. -/
def Image.chan0 (img : Image) : List ℚ :=
  (List.range img.height).flatMap fun y => (List.range img.width).map fun x => img.data x y 0

/-- Modelled from the spec: `getMaxVal(NULL, NULL)[0]`, the global maximum of
channel 0 (0 for an image without pixels). -/
def Image.getMaxVal (img : Image) : ℚ :=
  match img.chan0 with
  | [] => 0
  | a :: l => l.foldl max a

/-- Modelled from the spec: `getMinVal(NULL, NULL)[0]`, the global minimum of
channel 0 (0 for an image without pixels). -/
def Image.getMinVal (img : Image) : ℚ :=
  match img.chan0 with
  | [] => 0
  | a :: l => l.foldl min a

/-- Modelled from the spec: `*img -= v`, element-wise. -/
def Image.sub (img : Image) (v : ℚ) : Image :=
  { img with data := fun x y c => img.data x y c - v }

/-- Modelled from the spec: `*img *= v`, element-wise. -/
def Image.mul (img : Image) (v : ℚ) : Image :=
  { img with data := fun x y c => img.data x y c * v }

/-- Every float of the buffer, in raster order. -/
def Image.toList (img : Image) : List ℚ :=
  (List.range img.height).flatMap fun y =>
    (List.range img.width).flatMap fun x =>
      (List.range img.channels).map fun c => img.data x y c

/-- Modelled from the spec: `Image::size`, the number of floats of the
buffer. -/
def Image.size (img : Image) : Nat := img.width * img.height * img.channels

/-- Modelled from the spec: `Image::sort`, which leaves the ascending-sorted
values of the buffer in `dataTMP`. -/
def Image.sort (img : Image) : List ℚ := img.toList.insertionSort (· ≤ ·)

/-- The black-box image transforms `execute` calls. -/
structure Filters where
  -- FilterLuminance::Execute(img, lum, LT_CIE_LUMINANCE)
  luminance : Image → Image
  -- FilterGradientHarrisOPT::Execute(lum, I_grad, 0)
  gradient : Image → Image
  -- FilterGaussian2D(sigma).ProcessP(Single(I_grad), I_grad_flt)
  gaussian : ℚ → Image → Image
  -- FilterMax::Execute(ret, lum, size)
  maxFilter : Image → Int → Image

/-- The detector: its buffers, its parameters and the cached image size. -/
structure HarrisCornerDetector where
  lum : Option Image
  I_grad : Option Image
  I_grad_flt : Option Image
  ret : Option Image
  sigma : ℚ
  threshold : ℚ
  radius : Int
  width : Int
  height : Int

/-! ## Operations -/

/-- A `for (int i = 0; i < n; i++)` loop over a state. -/
def forRange {σ : Type} (n : Nat) (body : Nat → σ → σ) (s : σ) : σ :=
  (List.range n).foldl (fun s i => body i s) s

/-- The function `release`. -/
def HarrisCornerDetector.release (s : HarrisCornerDetector) : HarrisCornerDetector :=
  { s with lum := none, I_grad_flt := none, ret := none }

/-- The function `setNULL`, on a detector whose parameters are not set yet. -/
def HarrisCornerDetector.setNULL (s : HarrisCornerDetector) : HarrisCornerDetector :=
  { s with width := -1, height := -1, lum := none, I_grad := none, I_grad_flt := none,
           ret := none }

/-- The function `update`. -/
def HarrisCornerDetector.update (s : HarrisCornerDetector) (sigma : ℚ) (radius : Int)
    (threshold : ℚ) : HarrisCornerDetector :=
  let s := if sigma > 0 then { s with sigma := sigma } else { s with sigma := 1 }
  let s := if radius > 0 then { s with radius := radius } else { s with radius := 1 }
  { s with threshold := threshold }

/-- The constructor: `setNULL()` then `update(sigma, radius, threshold)`.  The
fields before construction are indeterminate; every one of them is
overwritten. -/
def HarrisCornerDetector.new (sigma : ℚ) (radius : Int) (threshold : ℚ) :
    HarrisCornerDetector :=
  (HarrisCornerDetector.setNULL
    { lum := none, I_grad := none, I_grad_flt := none, ret := none,
      sigma := 0, threshold := 0, radius := 0, width := 0, height := 0 }).update
    sigma radius threshold

/-- The literal `2.2204e-16f`. -/
def eps : ℚ := 22204 / 100000000000000000000

/-- The response loop of `execute`:
`ret(j, i)[0] = (x2 * y2 - xy * xy) / (x2 + y2 + eps)`. -/
def responseLoop (oob : Outside) (I_grad_flt : Image) (width height : Nat) (ret : Image) :
    Image :=
  forRange height (fun i ret =>
    forRange width (fun j ret =>
      let x2 := I_grad_flt.px oob j i 0
      let y2 := I_grad_flt.px oob j i 1
      let xy := I_grad_flt.px oob j i 2
      ret.setPx j i 0 ((x2 * y2 - xy * xy) / (x2 + y2 + eps))) ret) ret

/-- The conversion `int(f)` of a float: truncation toward zero. -/
def truncInt (q : ℚ) : Int := Int.tdiv q.num q.den

/-- The index `n - 1 - bestPoints` at which `execute` reads `dataTMP` for a
negative configured threshold. -/
def bestIndex (ret : Image) (threshold : ℚ) : Int :=
  let bestPoints : Int := truncInt (-threshold)
  let n : Int := ret.size
  n - 1 - bestPoints

/-- The threshold selection of `execute`: a negative threshold is replaced by
`dataTMP[n - 1 - bestPoints]`; there is no result when that index is outside
the sorted array. -/
def selectThreshold (ret : Image) (threshold : ℚ) : Option ℚ :=
  if threshold < 0 then
    if 0 ≤ bestIndex ret threshold then ret.sort[(bestIndex ret threshold).toNat]? else none
  else
    some threshold

/-- The body of the suppression scan at column `j`, row `i`. -/
def scanPixel (oob : Outside) (ret ret_flt : Image) (threshold : ℚ) (i j : Nat)
    (corners_w_quality : List Vector3f) : List Vector3f :=
  let w : ℚ := 1
  let i_f : ℚ := i
  let R := ret.px oob j i 0
  let R_flt := ret_flt.px oob j i 0
  if R = R_flt ∧ R > threshold then
    let Rr := ret.px oob j (i + 1) 0
    let Rl := ret.px oob j (i - 1) 0
    let Ru := ret.px oob (j + 1) i 0
    let Rd := ret.px oob (j - 1) i 0
    let cx := R
    let ax := (Rl + Rr) / 2 - cx
    let bx := ax + cx - Rl
    let x := -w * bx / (2 * ax)
    let cy := R
    let ay := (Rd + Ru) / 2 - cy
    let by1 := ay + cy - Rd
    let y := -w * by1 / (2 * ay)
    corners_w_quality ++ [⟨(j : ℚ) + x, i_f + y, R⟩]
  else
    corners_w_quality

/-- The suppression scan of `execute`: rows outside, columns inside. -/
def scan (oob : Outside) (ret ret_flt : Image) (threshold : ℚ) (width height : Nat) :
    List Vector3f :=
  forRange height (fun i acc =>
    forRange width (fun j acc => scanPixel oob ret ret_flt threshold i j acc) acc) []

/-- Modelled from the spec: `sortCornersAndTransfer` of the absent
`GeneralCornerDetector`: the candidates sorted by descending quality, their
positions appended to the output container. -/
def sortCornersAndTransfer (corners : List Vector3f) (cornersOut : List Vector2f) :
    List Vector2f :=
  cornersOut ++ (corners.insertionSort (fun a b => b.z ≤ a.z)).map (fun c => ⟨c.x, c.y⟩)

/-- What `execute` has computed when it reaches the threshold selection. -/
structure Stage where
  state : HarrisCornerDetector
  ret : Image
  ret_flt : Image

/-- The start of `execute`: a change of image size is recorded and releases
the buffers. -/
def HarrisCornerDetector.resize (s : HarrisCornerDetector) (img : Image) :
    HarrisCornerDetector :=
  if (img.width : Int) ≠ s.width ∨ (img.height : Int) ≠ s.height then
    HarrisCornerDetector.release { s with width := img.width, height := img.height }
  else s

/-- The luminance `execute` works on: a clone of a one-channel image, the
luminance transform of any other. -/
def luminanceOf (F : Filters) (img : Image) : Image :=
  if img.channels = 1 then img.clone else F.luminance img

/-- The rescaling of the luminance in `execute`: `*lum -= minL` then
`*lum *= delta` with `delta = maxL - minL`. -/
def normalize (lum : Image) : Image :=
  let maxL := lum.getMaxVal
  let minL := lum.getMinVal
  let delta := maxL - minL
  (lum.sub minL).mul delta

/-- The first part of `execute`, up to and including the max filter. -/
def HarrisCornerDetector.prepare (F : Filters) (oob : Outside) (s : HarrisCornerDetector)
    (img : Image) : Stage :=
  let s := s.resize img
  let lum := normalize (luminanceOf F img)
  let I_grad := F.gradient lum
  let I_grad_flt := F.gaussian s.sigma I_grad
  let ret := match s.ret with
    | none => lum.allocateSimilarOne
    | some r => r
  let ret := responseLoop oob I_grad_flt s.width.toNat s.height.toNat ret
  let lum := F.maxFilter ret (s.radius * 2 + 1)
  { state := { s with lum := some lum, I_grad := some I_grad, I_grad_flt := some I_grad_flt,
                      ret := some ret },
    ret := ret, ret_flt := lum }

/-- The function `execute`.  The result is the detector after the call and the
output container after the call; `none` when the call reads `dataTMP` outside
the sorted array. -/
def HarrisCornerDetector.execute (F : Filters) (oob : Outside) (s : HarrisCornerDetector)
    (img : Option Image) (corners : Option (List Vector2f)) :
    Option (HarrisCornerDetector × Option (List Vector2f)) :=
  match img, corners with
  | some img, some _ =>
    let p := s.prepare F oob img
    match selectThreshold p.ret p.state.threshold with
    | none => none
    | some t =>
      let corners_w_quality :=
        scan oob p.ret p.ret_flt t p.state.width.toNat p.state.height.toNat
      some ({ p.state with threshold := t }, some (sortCornersAndTransfer corners_w_quality []))
  | _, _ => some (s, corners)

/-! ## Derived notions used by the statements -/

/-- The quadratic coefficient `ax = (Rl + Rr) / 2 - cx` of the parabola
through the three samples `Rl, cx, Rr`. -/
def fitA (Rl cx Rr : ℚ) : ℚ := (Rl + Rr) / 2 - cx

/-- The refinement offset `-w * bx / (2 * ax)` with `w = 1`,
`bx = ax + cx - Rl`. -/
def fitOffset (Rl cx Rr : ℚ) : ℚ := -1 * (fitA Rl cx Rr + cx - Rl) / (2 * fitA Rl cx Rr)

/-- The response `R(j, i)` read by the scan. -/
def resp (oob : Outside) (ret : Image) (j i : Int) : ℚ := ret.px oob j i 0

/-- The test of the suppression scan at column `j`, row `i`. -/
def passes (oob : Outside) (ret ret_flt : Image) (t : ℚ) (j i : Nat) : Prop :=
  resp oob ret j i = resp oob ret_flt j i ∧ resp oob ret j i > t

instance (oob : Outside) (ret ret_flt : Image) (t : ℚ) (j i : Nat) :
    Decidable (passes oob ret ret_flt t j i) := by
  unfold passes; infer_instance

/-- The entry the scan pushes for a pixel that passes its test: the code
fits the `x` offset to `ret(j, i - 1), ret(j, i + 1)` and the `y` offset to
`ret(j - 1, i), ret(j + 1, i)`. -/
def emitted (oob : Outside) (ret : Image) (j i : Nat) : Vector3f :=
  ⟨(j : ℚ) + fitOffset (resp oob ret j ((i : Int) - 1)) (resp oob ret j i)
      (resp oob ret j ((i : Int) + 1)),
   (i : ℚ) + fitOffset (resp oob ret ((j : Int) - 1) i) (resp oob ret j i)
      (resp oob ret ((j : Int) + 1) i),
   resp oob ret j i⟩

/-- The pixels of a `width × height` image in raster order: rows ascending,
columns ascending within a row; a pixel is `(column, row)`. -/
def rasterOrder (width height : Nat) : List (Nat × Nat) :=
  (List.range height).flatMap fun i => (List.range width).map fun j => (j, i)

/-- A one-channel image given by its rows. -/
def Image.ofRows (width height : Nat) (rows : List (List ℚ)) : Image :=
  { width := width, height := height, channels := 1,
    data := fun x y c => if c = 0 then (rows.getD y []).getD x 0 else 0 }

/-- An accessor that clamps a coordinate outside the image to the nearest
pixel of the image. -/
def clampOutside : Outside := fun img x y c =>
  img.data (min x.toNat (img.width - 1)) (min y.toNat (img.height - 1)) c

/-- A 3 × 3 response map with one peak, at the centre; its left neighbour is
1, its right neighbour 3, the neighbours above and below are both 2. -/
def peak3 : Image := Image.ofRows 3 3 [[0, 2, 0], [1, 4, 3], [0, 2, 0]]

/-- The 3 × 3 window maximum of `peak3`. -/
def peak3Max : Image := Image.ofRows 3 3 [[4, 4, 4], [4, 4, 4], [4, 4, 4]]

/-- The Harris response `(a * b - c * c) / (a + b + eps)` of the tensor
`g` at column `x`, row `y`, with `a, b, c` its channels 0, 1, 2. -/
def response (oob : Outside) (g : Image) (x y : Nat) : ℚ :=
  (g.px oob x y 0 * g.px oob x y 1 - g.px oob x y 2 * g.px oob x y 2) /
    (g.px oob x y 0 + g.px oob x y 1 + eps)

/-- A 2 × 1 three-channel tensor: `(1, 2, 1)` at column 0, `(0, 0, 0)` at
column 1. -/
def tensor2 : Image :=
  { width := 2, height := 1, channels := 3,
    data := fun x _ c => if x = 0 then (if c = 1 then 2 else 1) else 0 }

/-- The filtered map `ret_flt` is the maximum of `ret` over the
`(2 * radius + 1)`-square window around every pixel of the image, the samples
of the window read through the accessor. -/
def IsWindowMax (oob : Outside) (ret ret_flt : Image) (radius : Int) (width height : Nat) :
    Prop :=
  ∀ j i : Nat, j < width → i < height →
    (∀ dx dy : Int, |dx| ≤ radius → |dy| ≤ radius →
      resp oob ret (j + dx) (i + dy) ≤ resp oob ret_flt j i)
    ∧ ∃ dx dy : Int, |dx| ≤ radius ∧ |dy| ≤ radius ∧
      resp oob ret (j + dx) (i + dy) = resp oob ret_flt j i

/-- Every channel of every pixel of the image is zero. -/
def Image.IsZero (img : Image) : Prop :=
  ∀ x y c, x < img.width → y < img.height → c < img.channels → img.data x y c = 0

/-- Every channel of every pixel of the image has the value `v`. -/
def Image.IsUniform (img : Image) (v : ℚ) : Prop :=
  ∀ x y c, x < img.width → y < img.height → c < img.channels → img.data x y c = v

/-- Modelled from the spec: the shapes of the results of the transforms (the
transforms are absent): the luminance has the width and height of its input,
the gradient tensor too and it has three channels, the Gaussian smoothing
keeps the shape of its input. -/
structure Filters.KeepsShape (F : Filters) : Prop where
  luminance : ∀ img, (F.luminance img).width = img.width ∧
    (F.luminance img).height = img.height
  gradient : ∀ img, (F.gradient img).width = img.width ∧
    (F.gradient img).height = img.height ∧ (F.gradient img).channels = 3
  gaussian : ∀ sigma img, (F.gaussian sigma img).width = img.width ∧
    (F.gaussian sigma img).height = img.height ∧
    (F.gaussian sigma img).channels = img.channels

/-- The gradient and the Gaussian transform map a zero image to a zero
image. -/
structure Filters.KeepsZero (F : Filters) : Prop where
  gradient : ∀ img, img.IsZero → (F.gradient img).IsZero
  gaussian : ∀ sigma img, img.IsZero → (F.gaussian sigma img).IsZero

/-- The response buffer of the detector, when there is one, has the cached
image size: what `execute` leaves behind, and what `new` starts with. -/
def HarrisCornerDetector.RetFits (s : HarrisCornerDetector) : Prop :=
  ∀ r, s.ret = some r → (r.width : Int) = s.width ∧ (r.height : Int) = s.height

/-- A gradient tensor for the examples: central differences of channel 0,
clamped at the border, in the channels `Ix², Iy², Ix·Iy`. -/
def centralTensor (img : Image) : Image :=
  { width := img.width, height := img.height, channels := 3,
    data := fun x y c =>
      if 0 < img.channels then
        let ix := img.data (min (x + 1) (img.width - 1)) y 0 - img.data (x - 1) y 0
        let iy := img.data x (min (y + 1) (img.height - 1)) 0 - img.data x (y - 1) 0
        if c = 0 then ix * ix else if c = 1 then iy * iy else ix * iy
      else 0 }

/-- The samples of the square window of half-width `half` around the pixel
`(x, y)`, the window clamped at the border. -/
def windowSamples (img : Image) (half x y c : Nat) : List ℚ :=
  (List.range (2 * half + 1)).flatMap fun a =>
    (List.range (2 * half + 1)).map fun b =>
      img.data (min (x + a - half) (img.width - 1)) (min (y + b - half) (img.height - 1)) c

/-- A max filter for the examples: the maximum over the square window of the
given size. -/
def windowMax (img : Image) (size : Int) : Image :=
  { img with
    data := fun x y c =>
      (windowSamples img ((size - 1) / 2).toNat x y c).foldl max (img.data x y c) }

/-- Transforms for the examples: channel 0 as luminance, `centralTensor`, no
smoothing, `windowMax`. -/
def sampleFilters : Filters :=
  { luminance := fun img => { img with channels := 1 },
    gradient := centralTensor,
    gaussian := fun _ img => img,
    maxFilter := windowMax }

/-- A uniform 2 × 2 one-channel image. -/
def flat2 : Image := Image.ofRows 2 2 [[7, 7], [7, 7]]

/-- A 3 × 3 one-channel image: 0 at the centre, 1 elsewhere. -/
def pit3 : Image := Image.ofRows 3 3 [[1, 1, 1], [1, 0, 1], [1, 1, 1]]

theorem forRange_append {α : Type} (n : Nat) (f : Nat → List α) (acc : List α) :
    forRange n (fun i acc => acc ++ f i) acc = acc ++ (List.range n).flatMap f := by
  unfold forRange
  generalize List.range n = l
  induction l generalizing acc with
  | nil => simp
  | cons a l ih => simp [List.foldl_cons, ih, List.flatMap_cons, List.append_assoc]

theorem scanPixel_eq (oob : Outside) (ret ret_flt : Image) (t : ℚ) (i j : Nat)
    (acc : List Vector3f) :
    scanPixel oob ret ret_flt t i j acc =
      acc ++ (if passes oob ret ret_flt t j i then [emitted oob ret j i] else []) := by
  by_cases h : passes oob ret ret_flt t j i
  · have h2 := h
    unfold passes resp at h2
    unfold scanPixel
    dsimp only
    rw [if_pos h2, if_pos h]
    simp [emitted, fitOffset, fitA, resp]
  · have h2 := h
    unfold passes resp at h2
    unfold scanPixel
    dsimp only
    rw [if_neg h2, if_neg h]
    simp

theorem scan_flatMap (oob : Outside) (ret ret_flt : Image) (t : ℚ) (width height : Nat) :
    scan oob ret ret_flt t width height =
      (List.range height).flatMap fun i => (List.range width).flatMap fun j =>
        if passes oob ret ret_flt t j i then [emitted oob ret j i] else [] := by
  unfold scan
  have h1 : ∀ i acc, forRange width
      (fun j acc => scanPixel oob ret ret_flt t i j acc) acc =
      acc ++ (List.range width).flatMap fun j =>
        if passes oob ret ret_flt t j i then [emitted oob ret j i] else [] := by
    intro i acc
    simp only [scanPixel_eq]
    exact forRange_append width _ acc
  simp only [h1]
  rw [forRange_append]
  simp

theorem scan_raster (oob : Outside) (ret ret_flt : Image) (t : ℚ) (width height : Nat) :
    scan oob ret ret_flt t width height =
      ((rasterOrder width height).filter
        fun p => decide (passes oob ret ret_flt t p.1 p.2)).map
        fun p => emitted oob ret p.1 p.2 := by
  rw [scan_flatMap]
  unfold rasterOrder
  generalize List.range height = rows
  induction rows with
  | nil => simp
  | cons i rows ih =>
    simp only [List.flatMap_cons, List.filter_append, List.map_append, ih]
    congr 1
    generalize List.range width = cols
    induction cols with
    | nil => simp
    | cons j cols ih2 =>
      simp only [List.flatMap_cons, List.map_cons, List.filter_cons, ih2]
      by_cases h : passes oob ret ret_flt t j i <;> simp [h]

theorem rasterOrder_mem (width height j i : Nat) :
    (j, i) ∈ rasterOrder width height ↔ j < width ∧ i < height := by
  simp only [rasterOrder, List.mem_flatMap, List.mem_map, List.mem_range, Prod.mk.injEq]
  constructor
  · rintro ⟨a, ha, b, hb, rfl, rfl⟩
    exact ⟨hb, ha⟩
  · rintro ⟨hj, hi⟩
    exact ⟨i, hi, j, hj, rfl, rfl⟩

theorem rasterOrder_nodup (width height : Nat) : (rasterOrder width height).Nodup := by
  unfold rasterOrder
  rw [List.nodup_flatMap]
  constructor
  · intro i _
    exact (List.nodup_range width).map (fun a b h => by simpa using h)
  · have h : (List.range height).Pairwise (· ≠ ·) := List.nodup_range height
    refine h.imp ?_
    intro a b hab
    simp only [Function.onFun]
    intro p hp hq
    simp only [List.mem_map, List.mem_range] at hp hq
    obtain ⟨j1, _, rfl⟩ := hp
    obtain ⟨j2, _, h2⟩ := hq
    simp only [Prod.mk.injEq] at h2
    exact hab h2.2.symm

theorem forRange_succ {σ : Type} (n : Nat) (body : Nat → σ → σ) (s : σ) :
    forRange (n + 1) body s = body n (forRange n body s) := by
  simp [forRange, List.range_succ, List.foldl_append]

theorem writeRow (f : Nat → Nat → ℚ) (i width : Nat) (r : Image) :
    forRange width (fun j r => r.setPx j i 0 (f j i)) r =
      { r with data := fun x y c => if x < width ∧ y = i ∧ c = 0 then f x y else r.data x y c } := by
  induction width with
  | zero => simp [forRange]
  | succ w ih =>
    rw [forRange_succ, ih]
    simp only [Image.setPx]
    congr 1
    funext x y c
    by_cases h1 : x = w ∧ y = i ∧ c = 0
    · obtain ⟨rfl, rfl, rfl⟩ := h1
      simp
    · rw [if_neg h1]
      by_cases h2 : x < w ∧ y = i ∧ c = 0
      · rw [if_pos h2, if_pos ⟨by omega, h2.2⟩]
      · rw [if_neg h2, if_neg]
        rintro ⟨h3, h4, h5⟩
        rcases Nat.lt_succ_iff_lt_or_eq.mp h3 with h6 | h6
        · exact h2 ⟨h6, h4, h5⟩
        · exact h1 ⟨h6, h4, h5⟩

theorem writeGrid (f : Nat → Nat → ℚ) (width height : Nat) (r : Image) :
    forRange height (fun i r => forRange width (fun j r => r.setPx j i 0 (f j i)) r) r =
      { r with data := fun x y c =>
          if x < width ∧ y < height ∧ c = 0 then f x y else r.data x y c } := by
  induction height with
  | zero => simp [forRange]
  | succ h ih =>
    rw [forRange_succ, ih, writeRow]
    congr 1
    funext x y c
    by_cases h1 : x < width ∧ y = h ∧ c = 0
    · rw [if_pos h1, if_pos ⟨h1.1, by omega, h1.2.2⟩]
    · rw [if_neg h1]
      dsimp only
      by_cases h2 : x < width ∧ y < h ∧ c = 0
      · rw [if_pos h2, if_pos ⟨h2.1, by omega, h2.2.2⟩]
      · rw [if_neg h2, if_neg]
        rintro ⟨h3, h4, h5⟩
        rcases Nat.lt_succ_iff_lt_or_eq.mp h4 with h6 | h6
        · exact h2 ⟨h3, h6, h5⟩
        · exact h1 ⟨h3, h6, h5⟩

theorem responseLoop_eq (oob : Outside) (g : Image) (width height : Nat) (ret : Image) :
    responseLoop oob g width height ret =
      { ret with data := fun x y c =>
          if x < width ∧ y < height ∧ c = 0 then response oob g x y else ret.data x y c } := by
  unfold responseLoop
  exact writeGrid (fun x y => response oob g x y) width height ret

theorem eps_pos : 0 < eps := by
  unfold eps
  norm_num

theorem execute_absent (F : Filters) (oob : Outside) (s : HarrisCornerDetector)
    (img : Option Image) (corners : Option (List Vector2f)) :
    s.execute F oob none corners = some (s, corners)
      ∧ s.execute F oob img none = some (s, none) := by
  constructor
  · cases corners <;> rfl
  · cases img <;> rfl

theorem prepare_threshold (F : Filters) (oob : Outside) (s : HarrisCornerDetector) (img : Image)
    (t : ℚ) :
    HarrisCornerDetector.prepare F oob { s with threshold := t } img =
      { state := { (s.prepare F oob img).state with threshold := t },
        ret := (s.prepare F oob img).ret, ret_flt := (s.prepare F oob img).ret_flt } := by
  unfold HarrisCornerDetector.prepare HarrisCornerDetector.resize
  by_cases h : (img.width : Int) ≠ s.width ∨ (img.height : Int) ≠ s.height
  · simp only [if_pos h, HarrisCornerDetector.release]
  · simp only [if_neg h]

theorem update_threshold (s : HarrisCornerDetector) (sigma : ℚ) (radius : Int) (t : ℚ) :
    s.update sigma radius t = { s.update sigma radius 0 with threshold := t } := by
  unfold HarrisCornerDetector.update
  by_cases h1 : sigma > 0 <;> by_cases h2 : radius > 0 <;> simp [h1, h2]

theorem selectThreshold_nonneg (ret : Image) (t : ℚ) (h : 0 ≤ t) :
    selectThreshold ret t = some t := by
  unfold selectThreshold
  rw [if_neg (not_lt.mpr h)]

theorem scan_sublist (oob : Outside) (ret ret_flt : Image) (t1 t2 : ℚ) (width height : Nat)
    (h : t1 ≤ t2) :
    (scan oob ret ret_flt t2 width height).Sublist (scan oob ret ret_flt t1 width height) := by
  rw [scan_raster, scan_raster]
  apply List.Sublist.map
  apply List.monotone_filter_right
  intro p hp
  simp only [passes, decide_eq_true_eq] at hp ⊢
  exact ⟨hp.1, lt_of_le_of_lt h hp.2⟩

theorem length_sortCornersAndTransfer (cs : List Vector3f) :
    (sortCornersAndTransfer cs []).length = cs.length := by
  simp [sortCornersAndTransfer, List.length_insertionSort]

theorem execute_nonneg (F : Filters) (oob : Outside) (s : HarrisCornerDetector) (img : Image)
    (corners : List Vector2f) (h : 0 ≤ s.threshold) :
    s.execute F oob (some img) (some corners) =
      some ((s.prepare F oob img).state,
        some (sortCornersAndTransfer
          (scan oob (s.prepare F oob img).ret (s.prepare F oob img).ret_flt s.threshold
            (s.prepare F oob img).state.width.toNat (s.prepare F oob img).state.height.toNat)
          [])) := by
  have ht : (s.prepare F oob img).state.threshold = s.threshold := by
    unfold HarrisCornerDetector.prepare HarrisCornerDetector.resize
    by_cases h : (img.width : Int) ≠ s.width ∨ (img.height : Int) ≠ s.height
    · simp only [if_pos h, HarrisCornerDetector.release]
    · simp only [if_neg h]
  unfold HarrisCornerDetector.execute
  simp only [ht, selectThreshold_nonneg _ _ h]
  rw [← ht]

theorem fitOffset_bound (Rl c Rr : ℚ) (hl : Rl ≤ c) (hr : Rr ≤ c) (ha : fitA Rl c Rr ≠ 0) :
    |fitOffset Rl c Rr| ≤ 1 := by
  have hle : fitA Rl c Rr ≤ 0 := by unfold fitA; linarith
  have hneg : fitA Rl c Rr < 0 := lt_of_le_of_ne hle ha
  have h2 : 2 * fitA Rl c Rr < 0 := by linarith
  unfold fitOffset
  rw [abs_le]
  constructor
  · rw [le_div_iff_of_neg h2]
    unfold fitA at *
    linarith
  · rw [div_le_iff_of_neg h2]
    unfold fitA at *
    linarith

theorem mem_scan (oob : Outside) (ret ret_flt : Image) (t : ℚ) (width height : Nat)
    (e : Vector3f) :
    e ∈ scan oob ret ret_flt t width height ↔
      ∃ j i : Nat, j < width ∧ i < height ∧ passes oob ret ret_flt t j i ∧
        e = emitted oob ret j i := by
  rw [scan_raster]
  simp only [List.mem_map, List.mem_filter, decide_eq_true_eq, Prod.exists, rasterOrder_mem]
  constructor
  · rintro ⟨j, i, ⟨⟨hj, hi⟩, hp⟩, rfl⟩
    exact ⟨j, i, hj, hi, hp, rfl⟩
  · rintro ⟨j, i, hj, hi, hp, rfl⟩
    exact ⟨j, i, ⟨⟨hj, hi⟩, hp⟩, rfl⟩

theorem peak3_le (x y : Nat) : peak3.data x y 0 ≤ 4 := by
  rcases y with _ | _ | _ | y <;> rcases x with _ | _ | _ | x <;>
    simp [peak3, Image.ofRows] <;> norm_num

theorem resp_peak3_le (x y : Int) : resp clampOutside peak3 x y ≤ 4 := by
  unfold resp Image.px
  split
  · exact peak3_le _ _
  · exact peak3_le _ _

theorem resp_peak3Max (j i : Nat) (hj : j < 3) (hi : i < 3) :
    resp clampOutside peak3Max j i = 4 := by
  interval_cases j <;> interval_cases i <;>
    simp [resp, Image.px, peak3Max, Image.ofRows]

theorem toNat_two : Int.toNat 2 = 2 := rfl

theorem peak3_centre :
    passes clampOutside peak3 peak3Max 0 1 1
      ∧ fitA (resp clampOutside peak3 1 0) (resp clampOutside peak3 1 1)
          (resp clampOutside peak3 1 2) ≠ 0
      ∧ fitA (resp clampOutside peak3 0 1) (resp clampOutside peak3 1 1)
          (resp clampOutside peak3 2 1) ≠ 0 := by
  refine ⟨?_, ?_, ?_⟩
  · norm_num [passes, resp, Image.px, peak3, peak3Max, Image.ofRows]
  · norm_num [fitA, resp, Image.px, peak3, Image.ofRows, toNat_two]
  · norm_num [fitA, resp, Image.px, peak3, Image.ofRows, toNat_two]

theorem peak3_windowMax : IsWindowMax clampOutside peak3 peak3Max 1 3 3 := by
  intro j i hj hi
  rw [resp_peak3Max j i hj hi]
  refine ⟨fun dx dy _ _ => resp_peak3_le _ _, 1 - (j : Int), 1 - (i : Int), ?_, ?_, ?_⟩
  · rw [abs_le]; constructor <;> omega
  · rw [abs_le]; constructor <;> omega
  · have e1 : (j : Int) + (1 - (j : Int)) = 1 := by ring
    have e2 : (i : Int) + (1 - (i : Int)) = 1 := by ring
    rw [e1, e2]
    simp [resp, Image.px, peak3, Image.ofRows]

theorem truncInt_natCast (k : Nat) : truncInt (k : ℚ) = k := by
  simp [truncInt]

theorem length_flatMap_const {α β : Type} (l : List α) (f : α → List β) (c : Nat)
    (h : ∀ a, (f a).length = c) : (l.flatMap f).length = l.length * c := by
  induction l with
  | nil => simp
  | cons a l ih => simp [List.flatMap_cons, h, ih, Nat.succ_mul, Nat.add_comm]

theorem toList_length (img : Image) : img.toList.length = img.size := by
  unfold Image.toList Image.size
  rw [length_flatMap_const _ _ (img.width * img.channels), List.length_range]
  · ring
  · intro y
    rw [length_flatMap_const _ _ img.channels, List.length_range]
    intro x
    simp

theorem sort_length (img : Image) : img.sort.length = img.size := by
  unfold Image.sort
  rw [List.length_insertionSort, toList_length]

theorem sorted_countP_gt (S : List ℚ) (hS : S.Sorted (· ≤ ·)) (m : Nat) (hm : m < S.length) :
    S.countP (fun v => decide (S[m] < v)) ≤ S.length - 1 - m := by
  have hsplit : S = S.take (m + 1) ++ S.drop (m + 1) := (List.take_append_drop _ _).symm
  have h0 : (S.take (m + 1)).countP (fun v => decide (S[m] < v)) = 0 := by
    rw [List.countP_eq_zero]
    intro v hv
    simp only [decide_eq_true_eq, not_lt]
    obtain ⟨n, hn, rfl⟩ := List.getElem_of_mem hv
    rw [List.getElem_take]
    rw [List.length_take] at hn
    have hnm : n ≤ m := by omega
    exact hS.rel_get_of_le (a := ⟨n, by omega⟩) (b := ⟨m, hm⟩) hnm
  calc S.countP (fun v => decide (S[m] < v))
      = (S.take (m + 1) ++ S.drop (m + 1)).countP (fun v => decide (S[m] < v)) := by
        rw [← hsplit]
    _ = (S.drop (m + 1)).countP (fun v => decide (S[m] < v)) := by
        rw [List.countP_append, h0, Nat.zero_add]
    _ ≤ (S.drop (m + 1)).length := List.countP_le_length _
    _ = S.length - 1 - m := by rw [List.length_drop]; omega

theorem flatMap_sublist {α β : Type} (l : List α) (f g : α → List β)
    (h : ∀ a, (f a).Sublist (g a)) : (l.flatMap f).Sublist (l.flatMap g) := by
  induction l with
  | nil => simp
  | cons a l ih =>
    simp only [List.flatMap_cons]
    exact (h a).append ih

theorem chan0_sublist (img : Image) (hc : 0 < img.channels) : img.chan0.Sublist img.toList := by
  unfold Image.chan0 Image.toList
  apply flatMap_sublist
  intro y
  have e : (List.range img.width).map (fun x => img.data x y 0) =
      (List.range img.width).flatMap (fun x => [img.data x y 0]) := by
    induction List.range img.width with
    | nil => rfl
    | cons a l ih => simp [List.flatMap_cons, ih]
  rw [e]
  apply flatMap_sublist
  intro x
  rw [List.singleton_sublist]
  exact List.mem_map.mpr ⟨0, List.mem_range.mpr hc, rfl⟩

theorem resp_inside (oob : Outside) (img : Image) (j i : Nat) (hj : j < img.width)
    (hi : i < img.height) : resp oob img j i = img.data j i 0 := by
  unfold resp Image.px
  rw [if_pos]
  · simp
  · exact ⟨by omega, by omega, by omega, by omega⟩

theorem scan_length_le (oob : Outside) (ret ret_flt : Image) (t : ℚ) (hc : 0 < ret.channels) :
    (scan oob ret ret_flt t ret.width ret.height).length ≤
      ret.toList.countP (fun v => decide (t < v)) := by
  rw [scan_raster, List.length_map, ← List.countP_eq_length_filter]
  have h1 : (rasterOrder ret.width ret.height).countP
        (fun p => decide (passes oob ret ret_flt t p.1 p.2)) ≤
      (rasterOrder ret.width ret.height).countP
        ((fun v => decide (t < v)) ∘ fun p => ret.data p.1 p.2 0) := by
    apply List.countP_mono_left
    rintro ⟨j, i⟩ hmem hp
    rw [rasterOrder_mem] at hmem
    simp only [decide_eq_true_eq, Function.comp] at hp ⊢
    have := hp.2
    rw [resp_inside oob ret j i hmem.1 hmem.2] at this
    exact this
  have h2 : (rasterOrder ret.width ret.height).map (fun p => ret.data p.1 p.2 0) = ret.chan0 := by
    unfold rasterOrder Image.chan0
    rw [List.map_flatMap]
    simp only [List.map_map]
    rfl
  calc _ ≤ _ := h1
    _ = ((rasterOrder ret.width ret.height).map (fun p => ret.data p.1 p.2 0)).countP
          (fun v => decide (t < v)) := by rw [List.countP_map]
    _ = ret.chan0.countP (fun v => decide (t < v)) := by rw [h2]
    _ ≤ _ := (chan0_sublist ret hc).countP_le _

theorem sort_sorted (img : Image) : img.sort.Sorted (· ≤ ·) :=
  List.sorted_insertionSort _ _

theorem sort_countP (img : Image) (p : ℚ → Bool) : img.sort.countP p = img.toList.countP p :=
  (List.perm_insertionSort _ _).countP_eq p

theorem resize_width (s : HarrisCornerDetector) (img : Image) :
    (s.resize img).width = img.width ∧ (s.resize img).height = img.height := by
  unfold HarrisCornerDetector.resize
  by_cases h : (img.width : Int) ≠ s.width ∨ (img.height : Int) ≠ s.height
  · simp [if_pos h, HarrisCornerDetector.release]
  · rw [if_neg h]
    simp only [not_or, not_not] at h
    exact ⟨h.1.symm, h.2.symm⟩

theorem resize_retFits (s : HarrisCornerDetector) (img : Image) (h : s.RetFits) :
    (s.resize img).RetFits := by
  unfold HarrisCornerDetector.resize
  by_cases hc : (img.width : Int) ≠ s.width ∨ (img.height : Int) ≠ s.height
  · rw [if_pos hc]
    intro r hr
    simp [HarrisCornerDetector.release] at hr
  · rw [if_neg hc]
    exact h

theorem prepare_state_threshold (F : Filters) (oob : Outside) (s : HarrisCornerDetector)
    (img : Image) : (s.prepare F oob img).state.threshold = s.threshold := by
  unfold HarrisCornerDetector.prepare HarrisCornerDetector.resize
  by_cases h : (img.width : Int) ≠ s.width ∨ (img.height : Int) ≠ s.height
  · simp only [if_pos h, HarrisCornerDetector.release]
  · simp only [if_neg h]

theorem foldl_max_const (v : ℚ) (l : List ℚ) (h : ∀ u ∈ l, u = v) : l.foldl max v = v := by
  induction l with
  | nil => rfl
  | cons a l ih =>
    have ha : a = v := h a (List.mem_cons_self _ _)
    simp only [List.foldl_cons, ha, max_self]
    exact ih (fun u hu => h u (List.mem_cons_of_mem _ hu))

theorem foldl_min_const (v : ℚ) (l : List ℚ) (h : ∀ u ∈ l, u = v) : l.foldl min v = v := by
  induction l with
  | nil => rfl
  | cons a l ih =>
    have ha : a = v := h a (List.mem_cons_self _ _)
    simp only [List.foldl_cons, ha, min_self]
    exact ih (fun u hu => h u (List.mem_cons_of_mem _ hu))

theorem mem_chan0 (img : Image) (u : ℚ) (h : u ∈ img.chan0) :
    ∃ x y, x < img.width ∧ y < img.height ∧ u = img.data x y 0 := by
  unfold Image.chan0 at h
  simp only [List.mem_flatMap, List.mem_map, List.mem_range] at h
  obtain ⟨y, hy, x, hx, rfl⟩ := h
  exact ⟨x, y, hx, hy, rfl⟩

theorem delta_uniform (lum : Image) (v : ℚ) (hc : 0 < lum.channels) (h : lum.IsUniform v) :
    lum.getMaxVal - lum.getMinVal = 0 := by
  have hall : ∀ u ∈ lum.chan0, u = v := by
    intro u hu
    obtain ⟨x, y, hx, hy, rfl⟩ := mem_chan0 lum u hu
    exact h x y 0 hx hy hc
  unfold Image.getMaxVal Image.getMinVal
  cases hl : lum.chan0 with
  | nil => simp
  | cons a l =>
    rw [hl] at hall
    have ha : a = v := hall a (List.mem_cons_self _ _)
    have hl2 : ∀ u ∈ l, u = v := fun u hu => hall u (List.mem_cons_of_mem _ hu)
    simp only [ha, foldl_max_const v l hl2, foldl_min_const v l hl2, sub_self]

theorem normalize_isZero (lum : Image) (v : ℚ) (h : lum.IsUniform v) : (normalize lum).IsZero := by
  intro x y c hx hy hc
  have hc2 : 0 < lum.channels := lt_of_le_of_lt (Nat.zero_le c) hc
  simp only [normalize, Image.mul, Image.sub, delta_uniform lum v hc2 h, mul_zero]

theorem luminanceOf_size (F : Filters) (hS : F.KeepsShape) (img : Image) :
    (luminanceOf F img).width = img.width ∧ (luminanceOf F img).height = img.height := by
  unfold luminanceOf
  by_cases h : img.channels = 1
  · simp [if_pos h, Image.clone]
  · rw [if_neg h]
    exact hS.luminance img

theorem px_inside (oob : Outside) (img : Image) (j i c : Nat) (hj : j < img.width)
    (hi : i < img.height) : img.px oob j i c = img.data j i c := by
  unfold Image.px
  rw [if_pos]
  · simp
  · exact ⟨by omega, by omega, by omega, by omega⟩

theorem response_zero (oob : Outside) (g : Image) (j i : Nat) (hz : g.IsZero)
    (hj : j < g.width) (hi : i < g.height) (hc : g.channels = 3) : response oob g j i = 0 := by
  unfold response
  rw [px_inside oob g j i 0 hj hi, px_inside oob g j i 1 hj hi, px_inside oob g j i 2 hj hi,
    hz j i 0 hj hi (by omega), hz j i 1 hj hi (by omega), hz j i 2 hj hi (by omega)]
  simp

theorem prepare_ret (F : Filters) (oob : Outside) (s : HarrisCornerDetector) (img : Image) :
    (s.prepare F oob img).ret =
      responseLoop oob
        (F.gaussian (s.resize img).sigma (F.gradient (normalize (luminanceOf F img))))
        img.width img.height
        (match (s.resize img).ret with
          | none => (normalize (luminanceOf F img)).allocateSimilarOne
          | some r => r) := by
  have hw := resize_width s img
  simp only [HarrisCornerDetector.prepare, hw.1, hw.2, Int.toNat_ofNat]

theorem prepare_size (F : Filters) (oob : Outside) (s : HarrisCornerDetector) (img : Image) :
    (s.prepare F oob img).state.width = img.width ∧
      (s.prepare F oob img).state.height = img.height :=
  resize_width s img

theorem prepare_ret_size (F : Filters) (oob : Outside) (s : HarrisCornerDetector) (img : Image)
    (hS : F.KeepsShape) (hfit : s.RetFits) :
    (s.prepare F oob img).ret.width = img.width ∧
      (s.prepare F oob img).ret.height = img.height := by
  rw [prepare_ret, responseLoop_eq]
  have hw := resize_width s img
  have hf := resize_retFits s img hfit
  cases hr : (s.resize img).ret with
  | none =>
    simp only [Image.allocateSimilarOne, normalize, Image.mul, Image.sub]
    exact luminanceOf_size F hS img
  | some r =>
    have := hf r hr
    simp only
    rw [hw.1, hw.2] at this
    exact ⟨by exact_mod_cast this.1, by exact_mod_cast this.2⟩

theorem prepare_retFits (F : Filters) (oob : Outside) (s : HarrisCornerDetector) (img : Image)
    (hS : F.KeepsShape) (hfit : s.RetFits) : (s.prepare F oob img).state.RetFits := by
  intro r hr
  have hsz := prepare_ret_size F oob s img hS hfit
  have hw := prepare_size F oob s img
  have e : r = (s.prepare F oob img).ret := by
    simp only [HarrisCornerDetector.prepare, Option.some.injEq] at hr
    simp only [HarrisCornerDetector.prepare]
    exact hr.symm
  rw [e, hw.1, hw.2, hsz.1, hsz.2]
  exact ⟨rfl, rfl⟩

theorem prepare_resp (F : Filters) (oob : Outside) (s : HarrisCornerDetector) (img : Image)
    (hS : F.KeepsShape) (hfit : s.RetFits) (j i : Nat) (hj : j < img.width)
    (hi : i < img.height) :
    resp oob (s.prepare F oob img).ret j i =
      response oob
        (F.gaussian (s.resize img).sigma (F.gradient (normalize (luminanceOf F img)))) j i := by
  have hsz := prepare_ret_size F oob s img hS hfit
  rw [resp_inside oob _ j i (by rw [hsz.1]; exact hj) (by rw [hsz.2]; exact hi), prepare_ret,
    responseLoop_eq]
  simp [hj, hi]

theorem sampleFilters_keepsShape : sampleFilters.KeepsShape :=
  { luminance := fun _ => ⟨rfl, rfl⟩
    gradient := fun _ => ⟨rfl, rfl, rfl⟩
    gaussian := fun _ _ => ⟨rfl, rfl, rfl⟩ }

theorem centralTensor_isZero (img : Image) (h : img.IsZero) : (centralTensor img).IsZero := by
  intro x y c hx hy _
  have hx : x < img.width := hx
  have hy : y < img.height := hy
  by_cases hc : 0 < img.channels
  · have e1 := h (min (x + 1) (img.width - 1)) y 0 (by omega) hy hc
    have e2 := h (x - 1) y 0 (by omega) hy hc
    have e3 := h x (min (y + 1) (img.height - 1)) 0 hx (by omega) hc
    have e4 := h x (y - 1) 0 hx (by omega) hc
    simp [centralTensor, hc, e1, e2, e3, e4]
  · simp [centralTensor, hc]

theorem sampleFilters_keepsZero : sampleFilters.KeepsZero :=
  { gradient := centralTensor_isZero
    gaussian := fun _ _ h => h }

theorem new_retFits (sigma : ℚ) (radius : Int) (threshold : ℚ) :
    (HarrisCornerDetector.new sigma radius threshold).RetFits := by
  intro r hr
  unfold HarrisCornerDetector.new HarrisCornerDetector.update HarrisCornerDetector.setNULL at hr
  by_cases h1 : sigma > 0 <;> by_cases h2 : radius > 0 <;> simp [h1, h2] at hr

theorem new_threshold (sigma : ℚ) (radius : Int) (threshold : ℚ) :
    (HarrisCornerDetector.new sigma radius threshold).threshold = threshold := by
  unfold HarrisCornerDetector.new HarrisCornerDetector.update
  by_cases h1 : sigma > 0 <;> by_cases h2 : radius > 0 <;> simp [h1, h2]

theorem flat2_uniform : (luminanceOf sampleFilters flat2).IsUniform 7 := by
  intro x y c hx hy hc
  have hx : x < 2 := hx
  have hy : y < 2 := hy
  have hc : c < 1 := hc
  interval_cases x <;> interval_cases y <;> interval_cases c <;>
    simp [luminanceOf, flat2, Image.ofRows, Image.clone]

theorem execute_select (F : Filters) (oob : Outside) (s : HarrisCornerDetector) (img : Image)
    (c : List Vector2f) (t : ℚ)
    (h : selectThreshold (s.prepare F oob img).ret s.threshold = some t) :
    s.execute F oob (some img) (some c) =
      some ({ (s.prepare F oob img).state with threshold := t },
        some (sortCornersAndTransfer
          (scan oob (s.prepare F oob img).ret (s.prepare F oob img).ret_flt t
            (s.prepare F oob img).state.width.toNat (s.prepare F oob img).state.height.toNat)
          [])) := by
  unfold HarrisCornerDetector.execute
  simp only [prepare_state_threshold, h]

theorem execute_none (F : Filters) (oob : Outside) (s : HarrisCornerDetector) (img : Image)
    (c : List Vector2f)
    (h : selectThreshold (s.prepare F oob img).ret s.threshold = none) :
    s.execute F oob (some img) (some c) = none := by
  unfold HarrisCornerDetector.execute
  simp only [prepare_state_threshold, h]

theorem update_retFits (s : HarrisCornerDetector) (sigma : ℚ) (radius : Int) (threshold : ℚ)
    (h : s.RetFits) : (s.update sigma radius threshold).RetFits := by
  unfold HarrisCornerDetector.update
  by_cases h1 : sigma > 0 <;> by_cases h2 : radius > 0 <;> simpa [h1, h2] using h

theorem execute_retFits (F : Filters) (oob : Outside) (s s1 : HarrisCornerDetector)
    (img : Option Image) (corners out : Option (List Vector2f)) (hS : F.KeepsShape)
    (h : s.RetFits) (he : s.execute F oob img corners = some (s1, out)) : s1.RetFits := by
  cases img with
  | none =>
    have e := (execute_absent F oob s none corners).1
    rw [e] at he
    cases he
    exact h
  | some im =>
    cases corners with
    | none =>
      have e := (execute_absent F oob s (some im) none).2
      rw [e] at he
      cases he
      exact h
    | some c =>
      cases hsel : selectThreshold (s.prepare F oob im).ret s.threshold with
      | none =>
        rw [execute_none F oob s im c hsel] at he
        cases he
      | some t =>
        rw [execute_select F oob s im c t hsel] at he
        cases he
        exact prepare_retFits F oob s im hS h

/-! ## The properties of the specification -/

/-- C1: the candidate list built by the suppression scan holds, in raster
order (rows ascending, columns ascending within a row), one entry for each
pixel with `R == R_flt` and `R > t` and nothing else; every pixel occurs once
in that order, and the quality of an entry is the unrefined response of its
pixel. -/
theorem scan_exact (oob : Outside) (ret ret_flt : Image) (t : ℚ) (width height : Nat) :
    scan oob ret ret_flt t width height =
        ((((List.range height).flatMap fun i => (List.range width).map fun j => (j, i)).filter
          fun p => decide (ret.px oob p.1 p.2 0 = ret_flt.px oob p.1 p.2 0 ∧
            ret.px oob p.1 p.2 0 > t)).map
          fun p => emitted oob ret p.1 p.2)
      ∧ ((List.range height).flatMap fun i => (List.range width).map fun j => (j, i)).Nodup
      ∧ (∀ j i : Nat, (emitted oob ret j i).z = ret.px oob j i 0) := by
  refine ⟨?_, rasterOrder_nodup width height, fun j i => rfl⟩
  rw [scan_raster]
  rfl

/-- C2: after the response loop the response map holds, at every pixel
`(x, y)` of the image, `(a * b - c * c) / (a + b + eps)` with
`eps = 2.2204e-16` and `a, b, c` the channels 0, 1, 2 of the smoothed
gradient tensor at `(x, y)`; the denominator is not zero when `a ≥ 0` and
`b ≥ 0`. -/
theorem response_value (oob : Outside) (I_grad_flt ret : Image) (width height x y : Nat)
    (hx : x < width) (hy : y < height) :
    (responseLoop oob I_grad_flt width height ret).data x y 0 =
        (I_grad_flt.px oob x y 0 * I_grad_flt.px oob x y 1 -
            I_grad_flt.px oob x y 2 * I_grad_flt.px oob x y 2) /
          (I_grad_flt.px oob x y 0 + I_grad_flt.px oob x y 1 + eps)
      ∧ eps = 22204 / 10 ^ 20
      ∧ (0 ≤ I_grad_flt.px oob x y 0 → 0 ≤ I_grad_flt.px oob x y 1 →
          I_grad_flt.px oob x y 0 + I_grad_flt.px oob x y 1 + eps ≠ 0) := by
  refine ⟨?_, by unfold eps; norm_num, ?_⟩
  · rw [responseLoop_eq]
    simp [hx, hy, response]
  · intro ha hb
    have := eps_pos
    positivity

/-- An instance of `response_value`: the pixel `(0, 0)` of `tensor2`. -/
theorem response_value_witness :
    (0 < 2 ∧ 0 < 1) ∧
    ((responseLoop clampOutside tensor2 2 1 tensor2.allocateSimilarOne).data 0 0 0 =
        (tensor2.px clampOutside 0 0 0 * tensor2.px clampOutside 0 0 1 -
            tensor2.px clampOutside 0 0 2 * tensor2.px clampOutside 0 0 2) /
          (tensor2.px clampOutside 0 0 0 + tensor2.px clampOutside 0 0 1 + eps)
      ∧ eps = 22204 / 10 ^ 20
      ∧ (0 ≤ tensor2.px clampOutside 0 0 0 → 0 ≤ tensor2.px clampOutside 0 0 1 →
          tensor2.px clampOutside 0 0 0 + tensor2.px clampOutside 0 0 1 + eps ≠ 0)) :=
  ⟨by decide, response_value clampOutside tensor2 tensor2.allocateSimilarOne 2 1 0 0
    (by decide) (by decide)⟩

/-- C3: on `peak3` (left neighbour 1, right neighbour 3, neighbours above and
below equal) the scan emits the centre with `x = 1`, the offset fitted to the
vertical neighbours, where the horizontal fit gives `x = 1 + 1/4`; the
horizontal fit ends up in `y`. -/
theorem scan_peak3_axes_swapped :
    scan clampOutside peak3 peak3Max 0 3 3 = [⟨1, 5 / 4, 4⟩]
      ∧ (1 : ℚ) + fitOffset (resp clampOutside peak3 0 1) (resp clampOutside peak3 1 1)
          (resp clampOutside peak3 2 1) = 5 / 4
      ∧ (1 : ℚ) + fitOffset (resp clampOutside peak3 1 0) (resp clampOutside peak3 1 1)
          (resp clampOutside peak3 1 2) = 1 := by
  refine ⟨?_, ?_, ?_⟩
  · simp [scan, forRange, List.range_succ, scanPixel, Image.px, peak3, peak3Max, Image.ofRows,
      clampOutside]
    norm_num
  · simp [fitOffset, fitA, resp, Image.px, peak3, Image.ofRows]
    norm_num
  · simp [fitOffset, fitA, resp, Image.px, peak3, Image.ofRows]

/-- C4, amended: for a response map of `n` floats and `1 ≤ k ≤ n - 1`, the
configured threshold `-k` makes `execute` read the ascending-sorted values at
index `n - 1 - k`, which is inside the sorted array, the value there is the
effective threshold, and the scan with it emits at most `k` candidates. -/
theorem topK_count (oob : Outside) (ret ret_flt : Image) (k : Nat) (hk1 : 1 ≤ k)
    (hk : k < ret.size) :
    bestIndex ret (-(k : ℚ)) = (ret.size : Int) - 1 - k
      ∧ 0 ≤ bestIndex ret (-(k : ℚ)) ∧ bestIndex ret (-(k : ℚ)) < ret.sort.length
      ∧ ∃ t, ret.sort[ret.size - 1 - k]? = some t
          ∧ selectThreshold ret (-(k : ℚ)) = some t
          ∧ (scan oob ret ret_flt t ret.width ret.height).length ≤ k := by
  have hidx : bestIndex ret (-(k : ℚ)) = (ret.size : Int) - 1 - k := by
    simp [bestIndex, truncInt_natCast]
  have hnat : (bestIndex ret (-(k : ℚ))).toNat = ret.size - 1 - k := by
    rw [hidx]; omega
  have hlt : ret.size - 1 - k < ret.sort.length := by
    rw [sort_length]; omega
  have hchan : 0 < ret.channels := by
    rcases Nat.eq_zero_or_pos ret.channels with h | h
    · simp [Image.size, h] at hk
    · exact h
  refine ⟨hidx, by rw [hidx]; omega, by rw [hidx, sort_length]; omega,
    ret.sort[ret.size - 1 - k], List.getElem?_eq_getElem hlt, ?_, ?_⟩
  · unfold selectThreshold
    have hneg : -(k : ℚ) < 0 := by
      have : (0 : ℚ) < k := by exact_mod_cast hk1
      linarith
    rw [if_pos hneg, if_pos (by rw [hidx]; omega), hnat]
    exact List.getElem?_eq_getElem hlt
  · have h1 := scan_length_le oob ret ret_flt (ret.sort[ret.size - 1 - k]) hchan
    have h2 := sorted_countP_gt ret.sort (sort_sorted ret) (ret.size - 1 - k) hlt
    rw [sort_countP, sort_length] at h2
    omega

/-- An instance of `topK_count`: `peak3` with `k = 1`. -/
theorem topK_count_witness :
    1 ≤ 1 ∧ 1 < peak3.size ∧
    (bestIndex peak3 (-((1 : Nat) : ℚ)) = (peak3.size : Int) - 1 - (1 : Nat)
      ∧ 0 ≤ bestIndex peak3 (-((1 : Nat) : ℚ))
      ∧ bestIndex peak3 (-((1 : Nat) : ℚ)) < peak3.sort.length
      ∧ ∃ t, peak3.sort[peak3.size - 1 - 1]? = some t
          ∧ selectThreshold peak3 (-((1 : Nat) : ℚ)) = some t
          ∧ (scan clampOutside peak3 peak3Max t peak3.width peak3.height).length ≤ 1) :=
  ⟨le_refl 1, by simp [Image.size, peak3, Image.ofRows],
    topK_count clampOutside peak3 peak3Max 1 (le_refl 1)
      (by simp [Image.size, peak3, Image.ofRows])⟩

/-- C4 does not hold at either end of its range.  With `k = 0` the threshold
`-0` is not negative, the effective threshold is 0 and not the sorted value at
index `n - 1` (4 on `peak3`), and the scan emits one candidate, more than `k`;
with `k = n` (9 on `peak3`) the index is `-1`, outside the sorted array, and
no threshold results. -/
theorem topK_fails_at_ends :
    (selectThreshold peak3 (-((0 : Nat) : ℚ)) = some 0
        ∧ peak3.sort[peak3.size - 1 - 0]? = some 4
        ∧ (scan clampOutside peak3 peak3Max 0 3 3).length = 1)
      ∧ (peak3.size = 9 ∧ bestIndex peak3 (-((9 : Nat) : ℚ)) = -1
        ∧ selectThreshold peak3 (-((9 : Nat) : ℚ)) = none) := by
  have hsize : peak3.size = 9 := by decide
  refine ⟨⟨?_, ?_, ?_⟩, hsize, ?_, ?_⟩
  · simp [selectThreshold]
  · norm_num [Image.sort, Image.toList, peak3, Image.ofRows, List.range_succ,
      List.insertionSort, List.orderedInsert, Image.size]
  · simp [scan, forRange, List.range_succ, scanPixel, Image.px, peak3, peak3Max, Image.ofRows,
      clampOutside]
  · simp [bestIndex, truncInt, hsize]
  · simp [selectThreshold, bestIndex, truncInt, hsize]

/-- C5: with `radius ≥ 1` and `R_flt` the window maximum of `R`, every entry
of the candidate list is the entry of a pixel `(j, i)` of the image that
passes the test, and when the fit of that pixel is not degenerate (`ax ≠ 0`
and `ay ≠ 0`) both refinement offsets are at most 1 in absolute value, so the
emitted position is within one pixel of `(j, i)` along each axis. -/
theorem subpixel_bound (oob : Outside) (ret ret_flt : Image) (t : ℚ) (radius : Int)
    (width height : Nat) (hr : 1 ≤ radius)
    (hmax : IsWindowMax oob ret ret_flt radius width height) :
    ∀ e ∈ scan oob ret ret_flt t width height,
      ∃ j i : Nat, j < width ∧ i < height ∧ passes oob ret ret_flt t j i ∧
        e = emitted oob ret j i ∧
        (fitA (resp oob ret j ((i : Int) - 1)) (resp oob ret j i)
            (resp oob ret j ((i : Int) + 1)) ≠ 0 →
          fitA (resp oob ret ((j : Int) - 1) i) (resp oob ret j i)
            (resp oob ret ((j : Int) + 1) i) ≠ 0 →
          |fitOffset (resp oob ret j ((i : Int) - 1)) (resp oob ret j i)
              (resp oob ret j ((i : Int) + 1))| ≤ 1 ∧
          |fitOffset (resp oob ret ((j : Int) - 1) i) (resp oob ret j i)
              (resp oob ret ((j : Int) + 1) i)| ≤ 1 ∧
          |e.x - j| ≤ 1 ∧ |e.y - i| ≤ 1) := by
  intro e he
  obtain ⟨j, i, hj, hi, hp, rfl⟩ := (mem_scan oob ret ret_flt t width height e).mp he
  refine ⟨j, i, hj, hi, hp, rfl, ?_⟩
  intro hax hay
  have hdom := (hmax j i hj hi).1
  have hR : resp oob ret_flt j i = resp oob ret j i := hp.1.symm
  have hu : resp oob ret j ((i : Int) - 1) ≤ resp oob ret j i := by
    have := hdom 0 (-1) (by simp; linarith) (by simp; linarith)
    simpa [hR, sub_eq_add_neg] using this
  have hd : resp oob ret j ((i : Int) + 1) ≤ resp oob ret j i := by
    have := hdom 0 1 (by simp; linarith) (by simp; linarith)
    simpa [hR] using this
  have hl : resp oob ret ((j : Int) - 1) i ≤ resp oob ret j i := by
    have := hdom (-1) 0 (by simp; linarith) (by simp; linarith)
    simpa [hR, sub_eq_add_neg] using this
  have hrr : resp oob ret ((j : Int) + 1) i ≤ resp oob ret j i := by
    have := hdom 1 0 (by simp; linarith) (by simp; linarith)
    simpa [hR] using this
  have bx := fitOffset_bound _ _ _ hu hd hax
  have bY := fitOffset_bound _ _ _ hl hrr hay
  refine ⟨bx, bY, ?_, ?_⟩
  · simpa [emitted] using bx
  · simpa [emitted] using bY

/-- An instance of `subpixel_bound`: `peak3` with its window maximum and
radius 1; the centre pixel passes the test and its fit is not degenerate on
either axis. -/
theorem subpixel_bound_witness :
    (1 : Int) ≤ 1 ∧ IsWindowMax clampOutside peak3 peak3Max 1 3 3 ∧
    (passes clampOutside peak3 peak3Max 0 1 1
      ∧ fitA (resp clampOutside peak3 1 0) (resp clampOutside peak3 1 1)
          (resp clampOutside peak3 1 2) ≠ 0
      ∧ fitA (resp clampOutside peak3 0 1) (resp clampOutside peak3 1 1)
          (resp clampOutside peak3 2 1) ≠ 0) ∧
    ∀ e ∈ scan clampOutside peak3 peak3Max 0 3 3,
      ∃ j i : Nat, j < 3 ∧ i < 3 ∧ passes clampOutside peak3 peak3Max 0 j i ∧
        e = emitted clampOutside peak3 j i ∧
        (fitA (resp clampOutside peak3 j ((i : Int) - 1)) (resp clampOutside peak3 j i)
            (resp clampOutside peak3 j ((i : Int) + 1)) ≠ 0 →
          fitA (resp clampOutside peak3 ((j : Int) - 1) i) (resp clampOutside peak3 j i)
            (resp clampOutside peak3 ((j : Int) + 1) i) ≠ 0 →
          |fitOffset (resp clampOutside peak3 j ((i : Int) - 1)) (resp clampOutside peak3 j i)
              (resp clampOutside peak3 j ((i : Int) + 1))| ≤ 1 ∧
          |fitOffset (resp clampOutside peak3 ((j : Int) - 1) i) (resp clampOutside peak3 j i)
              (resp clampOutside peak3 ((j : Int) + 1) i)| ≤ 1 ∧
          |e.x - j| ≤ 1 ∧ |e.y - i| ≤ 1) :=
  ⟨le_refl 1, peak3_windowMax, peak3_centre,
    subpixel_bound clampOutside peak3 peak3Max 0 1 3 3 (le_refl 1) peak3_windowMax⟩

/-- C6: for a uniform image (every luminance value equal to `v`) and a
configured threshold `≥ 0`, with gradient and Gaussian transforms that map the
zero image to the zero image, the response is 0 at every pixel and `execute`
returns the empty list. -/
theorem execute_flat (F : Filters) (oob : Outside) (s : HarrisCornerDetector) (img : Image)
    (corners : List Vector2f) (v : ℚ) (hS : F.KeepsShape) (hZ : F.KeepsZero) (hfit : s.RetFits)
    (hU : (luminanceOf F img).IsUniform v) (ht : 0 ≤ s.threshold) :
    (∀ j i : Nat, j < img.width → i < img.height →
        resp oob (s.prepare F oob img).ret j i = 0)
      ∧ s.execute F oob (some img) (some corners) =
          some ((s.prepare F oob img).state, some []) := by
  have hlsz := luminanceOf_size F hS img
  have hz0 : (normalize (luminanceOf F img)).IsZero := normalize_isZero _ v hU
  have hg := hS.gradient (normalize (luminanceOf F img))
  have hgz := hZ.gradient _ hz0
  have hG := hS.gaussian (s.resize img).sigma (F.gradient (normalize (luminanceOf F img)))
  have hGz := hZ.gaussian (s.resize img).sigma _ hgz
  have hR : ∀ j i : Nat, j < img.width → i < img.height →
      resp oob (s.prepare F oob img).ret j i = 0 := by
    intro j i hj hi
    rw [prepare_resp F oob s img hS hfit j i hj hi]
    apply response_zero oob _ j i hGz
    · rw [hG.1, hg.1]; exact (show j < (normalize (luminanceOf F img)).width from by
        simp only [normalize, Image.mul, Image.sub]; rw [hlsz.1]; exact hj)
    · rw [hG.2.1, hg.2.1]; exact (show i < (normalize (luminanceOf F img)).height from by
        simp only [normalize, Image.mul, Image.sub]; rw [hlsz.2]; exact hi)
    · rw [hG.2.2, hg.2.2]
  refine ⟨hR, ?_⟩
  rw [execute_nonneg F oob s img corners ht]
  have hw := prepare_size F oob s img
  have hempty : scan oob (s.prepare F oob img).ret (s.prepare F oob img).ret_flt s.threshold
      (s.prepare F oob img).state.width.toNat (s.prepare F oob img).state.height.toNat = [] := by
    rw [List.eq_nil_iff_forall_not_mem]
    intro e he
    obtain ⟨j, i, hj, hi, hp, _⟩ := (mem_scan _ _ _ _ _ _ e).mp he
    rw [hw.1, Int.toNat_ofNat] at hj
    rw [hw.2, Int.toNat_ofNat] at hi
    have h0 := hp.2
    rw [hR j i hj hi] at h0
    exact absurd h0 (not_lt.mpr ht)
  rw [hempty]
  simp [sortCornersAndTransfer]

/-- An instance of `execute_flat`: a new detector with the default parameters
on the uniform image `flat2`. -/
theorem execute_flat_witness :
    sampleFilters.KeepsShape ∧ sampleFilters.KeepsZero
      ∧ (HarrisCornerDetector.new 1 3 (1 / 1000)).RetFits
      ∧ (luminanceOf sampleFilters flat2).IsUniform 7
      ∧ 0 ≤ (HarrisCornerDetector.new 1 3 (1 / 1000)).threshold
      ∧ ((∀ j i : Nat, j < flat2.width → i < flat2.height →
          resp clampOutside
            ((HarrisCornerDetector.new 1 3 (1 / 1000)).prepare sampleFilters clampOutside
              flat2).ret j i = 0)
        ∧ (HarrisCornerDetector.new 1 3 (1 / 1000)).execute sampleFilters clampOutside
            (some flat2) (some []) =
          some (((HarrisCornerDetector.new 1 3 (1 / 1000)).prepare sampleFilters clampOutside
            flat2).state, some [])) :=
  ⟨sampleFilters_keepsShape, sampleFilters_keepsZero, new_retFits 1 3 (1 / 1000), flat2_uniform,
    by rw [new_threshold]; norm_num,
    execute_flat sampleFilters clampOutside (HarrisCornerDetector.new 1 3 (1 / 1000)) flat2 [] 7
      sampleFilters_keepsShape sampleFilters_keepsZero (new_retFits 1 3 (1 / 1000)) flat2_uniform
      (by rw [new_threshold]; norm_num)⟩

/-- C8: for one image, sigma and radius, and thresholds `0 ≤ t1 ≤ t2`, both
calls of `execute` return a list, the candidates found with `t2` are a sublist
of the candidates found with `t1`, and the list returned with `t2` is no longer
than the list returned with `t1`. -/
theorem execute_threshold_monotone (F : Filters) (oob : Outside) (s : HarrisCornerDetector)
    (img : Image) (corners : List Vector2f) (sigma : ℚ) (radius : Int) (t1 t2 : ℚ)
    (h1 : 0 ≤ t1) (h12 : t1 ≤ t2) :
    ∃ (s1 s2 : HarrisCornerDetector) (C1 C2 : List Vector3f),
      (s.update sigma radius t1).execute F oob (some img) (some corners) =
          some (s1, some (sortCornersAndTransfer C1 []))
        ∧ (s.update sigma radius t2).execute F oob (some img) (some corners) =
          some (s2, some (sortCornersAndTransfer C2 []))
        ∧ C2.Sublist C1
        ∧ (sortCornersAndTransfer C2 []).length ≤ (sortCornersAndTransfer C1 []).length := by
  have e1 := execute_nonneg F oob (s.update sigma radius t1) img corners
    (by rw [update_threshold]; exact h1)
  have e2 := execute_nonneg F oob (s.update sigma radius t2) img corners
    (by rw [update_threshold]; exact le_trans h1 h12)
  refine ⟨_, _, _, _, e1, e2, ?_, ?_⟩
  · rw [update_threshold s sigma radius t1, update_threshold s sigma radius t2]
    simp only [prepare_threshold]
    exact scan_sublist _ _ _ _ _ _ _ h12
  · rw [length_sortCornersAndTransfer, length_sortCornersAndTransfer]
    apply List.Sublist.length_le
    rw [update_threshold s sigma radius t1, update_threshold s sigma radius t2]
    simp only [prepare_threshold]
    exact scan_sublist _ _ _ _ _ _ _ h12

/-- An instance of `execute_threshold_monotone`: thresholds `1/1000` and `1/2`
on `pit3`. -/
theorem execute_threshold_monotone_witness :
    (0 : ℚ) ≤ 1 / 1000 ∧ (1 / 1000 : ℚ) ≤ 1 / 2 ∧
    ∃ (s1 s2 : HarrisCornerDetector) (C1 C2 : List Vector3f),
      ((HarrisCornerDetector.new 1 3 0).update 1 1 (1 / 1000)).execute sampleFilters clampOutside
          (some pit3) (some []) = some (s1, some (sortCornersAndTransfer C1 []))
        ∧ ((HarrisCornerDetector.new 1 3 0).update 1 1 (1 / 2)).execute sampleFilters
          clampOutside (some pit3) (some []) = some (s2, some (sortCornersAndTransfer C2 []))
        ∧ C2.Sublist C1
        ∧ (sortCornersAndTransfer C2 []).length ≤ (sortCornersAndTransfer C1 []).length :=
  ⟨by norm_num, by norm_num,
    execute_threshold_monotone sampleFilters clampOutside (HarrisCornerDetector.new 1 3 0) pit3 []
      1 1 (1 / 1000) (1 / 2) (by norm_num) (by norm_num)⟩

/-- C9: `update` stores the given sigma when it is positive and 1 otherwise,
the given radius when it is positive and 1 otherwise, and the given threshold
as it is, so the stored sigma is positive and the stored radius at least 1;
the constructor stores the same values.  `update` is a total function: there
is no error result. -/
theorem update_clamps (s : HarrisCornerDetector) (sigma : ℚ) (radius : Int) (threshold : ℚ) :
    (s.update sigma radius threshold).sigma = (if sigma > 0 then sigma else 1)
      ∧ (s.update sigma radius threshold).radius = (if radius > 0 then radius else 1)
      ∧ (s.update sigma radius threshold).threshold = threshold
      ∧ 0 < (s.update sigma radius threshold).sigma
      ∧ 1 ≤ (s.update sigma radius threshold).radius
      ∧ (HarrisCornerDetector.new sigma radius threshold).sigma = (if sigma > 0 then sigma else 1)
      ∧ (HarrisCornerDetector.new sigma radius threshold).radius =
          (if radius > 0 then radius else 1)
      ∧ (HarrisCornerDetector.new sigma radius threshold).threshold = threshold := by
  unfold HarrisCornerDetector.new HarrisCornerDetector.update
  by_cases h1 : sigma > 0 <;> by_cases h2 : radius > 0 <;> simp [h1, h2] <;> omega

/-- C10: with the image or the output container absent `execute` returns at
once: the detector is the one it was called on, a present output container is
returned as it was, and nothing is produced. -/
theorem execute_missing_input (F : Filters) (oob : Outside) (s : HarrisCornerDetector)
    (img : Option Image) (corners : Option (List Vector2f)) :
    s.execute F oob none corners = some (s, corners)
      ∧ s.execute F oob img none = some (s, none) := by
  constructor
  · cases corners <;> rfl
  · cases img <;> rfl

end pic
